import Mathlib

/-!
Verification of the MInDes-UI VTS playback and visualization pipeline.

Shallow embedding, in Lean 4, of the parts of the MInDes-UI repository that
the specification's claims are about:

* the series resolver and file-list sorting
  (`vts_viewer/data_loader.py`: `load_vts_from_folder`, `refresh_file_list`,
  `_extract_series_prefix`);
* the grid-file loader (`load_single_vts_file`);
* the field-selector population (`populate_field_combos`);
* the sequential-playback controller and the background prefetch worker
  (`start_sequential_playback`, `stop_sequential_playback`,
  `_play_next_frame`, `_preload_frames_worker`);
* the boundary-trimming decision and the camera policy of the two render
  entry points (`vts_viewer/visualization.py` and `vts_viewer_widget.py`,
  both named `update_visualization`);
* the line-probe sampler (`on_line_changed`).

Python strings are modelled as `List Char` (Python compares strings by code
point, which coincides with comparison of `Char.val`); machine floats that
only ever hold file-name indices are modelled as `ℕ` / `ℤ` / `WithTop ℕ`
(Python's `float("inf")` compares above every integer, `-1` below every
nonnegative one); VTK structured grids are modelled by their point dimensions
and their list of point-data arrays.
-/

namespace MUI

/-! ## String helpers (Python semantics) -/

/-- The digit characters of a string, in order
(Python `"".join(c for c in s if c.isdigit())`, restricted to ASCII digits,
which is what the file names in question contain). -/
def digitsOf (cs : List Char) : List Char := cs.filter Char.isDigit

/-- Numeric value of a digit string read left to right
(Python `int(digits)` on a nonempty all-digit string). -/
def digitsVal (cs : List Char) : ℕ :=
  cs.foldl (fun acc c => 10 * acc + (c.toNat - 48)) 0

/-- Python `s.replace(".vts", "")`: remove every (non-overlapping, leftmost)
occurrence of the four characters `.vts`.  Structural recursion on the
character list. -/
def removeVtsOcc : List Char → List Char
  | '.' :: 'v' :: 't' :: 's' :: rest => removeVtsOcc rest
  | c :: rest => c :: removeVtsOcc rest
  | [] => []

/-- Drop the longest trailing run of digit characters
(the `while i >= 0 and base[i].isdigit(): i -= 1` loop of
`_extract_series_prefix`, expressed on the reversed list). -/
def dropTrailingDigits (cs : List Char) : List Char :=
  (cs.reverse.dropWhile Char.isDigit).reverse

/-- Python `filename.endswith(".vts")`. -/
def endsWithVts (cs : List Char) : Bool :=
  cs.reverse.take 4 == ['s', 't', 'v', '.']

/-! ## Series-prefix discovery (`_extract_series_prefix`, data_loader.py:495) -/

/-- Model of `_extract_series_prefix(filename)` from `vts_viewer/data_loader.py`:
returns `none` unless the name ends in `.vts`; otherwise strips the
extension, removes the trailing run of digits from the stem, and falls back
to the whole stem when nothing would be left. -/
def extractSeriesPfx (cs : List Char) : Option (List Char) :=
  if endsWithVts cs then
    let base := (cs.reverse.drop 4).reverse
    let pre := dropTrailingDigits base
    some (if pre.isEmpty then base else pre)
  else none

/-! ## Series resolution and refresh (`load_vts_from_folder` data_loader.py:104,
`refresh_file_list` data_loader.py:185)

`load_vts_from_folder` sorts the globbed file list with
`extract_index`: suffix after the prefix, `.replace(".vts","")`, digits
collected, `int(digits)` or `float("inf")`.  `refresh_file_list` sorts with
`extract_number`: suffix after the prefix, up to the first `.`, digits
collected, `int(digits)` or `-1`.  Python's `float("inf")` is above every
integer, so we model the first key in `WithTop ℕ`; the second key lives in
`ℤ`.  Python's stable `list.sort(key=...)` is modelled by
`List.insertionSort` on the pulled-back `≤` of the key (a stable sort; the
claims only concern sortedness and membership). -/

/-- Key `extract_index` (local function of `load_vts_from_folder`): the sort key
of one file name, `⊤` when the suffix holds no digit. -/
def extract_index (pfx : List Char) (name : List Char) : WithTop ℕ :=
  let suffix := removeVtsOcc (name.drop pfx.length)
  let ds := digitsOf suffix
  if ds.isEmpty then ⊤ else (digitsVal ds : ℕ)

/-- Key `extract_number` (local function of `refresh_file_list`): the sort key of
one file name, `-1` when the part before the first `.` holds no digit. -/
def extract_number (pfx : List Char) (name : List Char) : ℤ :=
  let numStr := (name.drop pfx.length).takeWhile (fun c => c ≠ '.')
  let ds := digitsOf numStr
  if ds.isEmpty then -1 else (digitsVal ds : ℤ)

/-- Sorting step `files.sort(key=extract_index)` in `load_vts_from_folder`. -/
def resolveSortFiles (pfx : List Char) (files : List (List Char)) :
    List (List Char) :=
  List.insertionSort (fun a b => extract_index pfx a ≤ extract_index pfx b) files

/-- Sorting step `current_files.sort(key=extract_number)` in `refresh_file_list`. -/
def refreshSortFiles (pfx : List Char) (files : List (List Char)) :
    List (List Char) :=
  List.insertionSort (fun a b => extract_number pfx a ≤ extract_number pfx b) files

/-! ## Single-file load (`load_single_vts_file`, data_loader.py:142) -/

/-- A VTK structured grid, modelled by its point dimensions and its point
data arrays (array name, number of components).  For a structured grid the
number of points is the product of the three point dimensions. -/
structure VtsGrid where
  nx : ℕ
  ny : ℕ
  nz : ℕ
  arrays : List (List Char × ℕ)
  deriving DecidableEq

/-- Value of `GetNumberOfPoints()` of a structured grid. -/
def VtsGrid.numPoints (g : VtsGrid) : ℕ := g.nx * g.ny * g.nz

/-- What the XML reader hands back in `load_single_vts_file`:
an exception from the `try` block, no output object, or a grid. -/
abbrev ReaderResult := Except (List Char) (Option VtsGrid)

/-- Model of `load_single_vts_file` from `vts_viewer/data_loader.py`, as the pair
(returned success flag, new value of `self.current_data`).
The `except` branch and the `not output or output.GetNumberOfPoints() == 0`
branch both set `self.current_data = None` and return `False`. -/
def load_single_vts_file : ReaderResult → Bool × Option VtsGrid
  | .error _ => (false, none)
  | .ok none => (false, none)
  | .ok (some g) => if g.numPoints = 0 then (false, none) else (true, some g)

/-! ## Field-selector population (`populate_field_combos`, data_loader.py:522) -/

/-- Shorthand for the character list of a string literal. -/
def strL (s : String) : List Char := s.data

/-- The `"(No fields)"` place-holder item. -/
def noFieldsText : List Char := strL "(No fields)"

/-- Tag of a point-data array accepted by `populate_field_combos`:
1 component is a scalar, 3 components a vector. -/
inductive FTag
  | scalar
  | vector
  deriving DecidableEq

/-- One entry of the field combo box (tag plus raw array name). -/
structure FieldItem where
  tag : FTag
  name : List Char
  deriving DecidableEq

/-- The first tuple component of the Python sort key
`(x[2] != 'scalar', x[1])`: `False` for scalars, `True` for vectors. -/
def tagBit : FTag → Bool
  | .scalar => false
  | .vector => true

/-- Python string `<=`: lexicographic comparison by code point
(`Char.toNat` is the code point). -/
def lexLe : List Char → List Char → Bool
  | [], _ => true
  | _ :: _, [] => false
  | a :: as, b :: bs =>
      if a.toNat < b.toNat then true
      else if b.toNat < a.toNat then false
      else lexLe as bs

/-- Python tuple `<=` on the sort key `(x[2] != 'scalar', x[1])`. -/
def fieldKeyLe (x y : FieldItem) : Bool :=
  (!tagBit x.tag && tagBit y.tag) ||
    ((tagBit x.tag == tagBit y.tag) && lexLe x.name y.name)

/-- Python `pat in s` on lists: `startsWithL` is `startswith`. -/
def startsWithL : List Char → List Char → Bool
  | [], _ => true
  | _ :: _, [] => false
  | a :: as, b :: bs => a == b && startsWithL as bs

/-- Python substring test `pat in s`. -/
def containsSub (pat : List Char) : List Char → Bool
  | [] => pat.isEmpty
  | c :: cs => startsWithL pat (c :: cs) || containsSub pat cs

/-- The loop over `point_data` in `populate_field_combos`: arrays with an
empty name are skipped, 1-component arrays become scalars, 3-component
arrays become vectors, every other component count is omitted. -/
def fieldsOf (arrays : List (List Char × ℕ)) : List FieldItem :=
  arrays.filterMap fun a =>
    if a.1 = [] then none
    else if a.2 = 1 then some ⟨.scalar, a.1⟩
    else if a.2 = 3 then some ⟨.vector, a.1⟩
    else none

/-- Sorting step `fields.sort(key=lambda x: (x[2] != 'scalar', x[1]))` — Python's stable
sort, modelled by insertion sort on the same key order. -/
def sortFields (l : List FieldItem) : List FieldItem :=
  List.insertionSort (fun x y => fieldKeyLe x y = true) l

/-- Display name `"[S] name"` / `"[V] name"` added to the combo. -/
def displayOf (x : FieldItem) : List Char :=
  (match x.tag with
    | .scalar => strL "[S] "
    | .vector => strL "[V] ") ++ x.name

/-- Recovery of the previously selected raw name from the combo text
(`current_text[4:]` when it starts with `"[S] "` or `"[V] "`, else the text
itself); `none` when the combo was empty. -/
def currentNameOf : Option (List Char) → Option (List Char)
  | none => none
  | some t =>
      some (if t.take 4 = strL "[S] " ∨ t.take 4 = strL "[V] " then t.drop 4 else t)

/-- Index assigned to `nm` by the `name_to_index` dictionary: the position of
the LAST entry with that name (later `dict` writes overwrite earlier ones). -/
def lastIdxOf (nm : List Char) : List FieldItem → Option ℕ
  | [] => none
  | x :: xs =>
      match lastIdxOf nm xs with
      | some k => some (k + 1)
      | none => if x.name = nm then some 0 else none

/-- Result of `populate_field_combos`: the combo items, the sorted field
entries behind them, and the selected index. -/
structure ComboResult where
  items : List (List Char)
  entries : List FieldItem
  selected : ℕ
  deriving DecidableEq

/-- Model of `populate_field_combos` from `vts_viewer/data_loader.py`, as a function
of the point-data arrays of the freshly loaded frame and of the previous
combo text (`none` when the combo held no item). -/
def populate_field_combos (arrays : List (List Char × ℕ))
    (prevText : Option (List Char)) : ComboResult :=
  let fields := sortFields (fieldsOf arrays)
  if fields.isEmpty then ⟨[noFieldsText], [], 0⟩
  else
    let sel := match currentNameOf prevText with
      | some nm => (lastIdxOf nm fields).getD 0
      | none => 0
    ⟨fields.map displayOf, fields, sel⟩

/-! ## Sequential playback (`start_sequential_playback` data_loader.py:249,
`stop_sequential_playback` data_loader.py:281, `_play_next_frame`
data_loader.py:291, `_preload_frames_worker` data_loader.py:332)

Frames are an arbitrary type `F`; reading a file is a function
`ℕ → Option F` from index to frame (`none` covers both an empty dataset and
a reader exception — in both cases the worker skips the frame and in the
synchronous path `load_single_vts_file` returns `False`). -/

/-- The playback-relevant widget state: file list length, current index,
displayed data, the frame queue (front = next `get`), the shared in-flight
index set, the stop event and the playing flag. -/
structure PlayerState (F : Type) where
  fileCount : ℕ
  currentFileIndex : ℕ
  currentData : Option F
  frameBuffer : List (ℕ × F)
  loadedOrQueued : Finset ℕ
  stopEvent : Bool
  isPlaying : Bool

/-- Model of `stop_sequential_playback`: clear the playing flag, set the stop event,
drain the queue.  The in-flight set is not touched. -/
def stop_sequential_playback {F : Type} (s : PlayerState F) : PlayerState F :=
  { s with isPlaying := false, stopEvent := true, frameBuffer := [] }

/-- Outcome of `start_sequential_playback`: the new state, the `start_index`
argument handed to the spawned `_preload_frames_worker` thread (`none` when
no worker was spawned), and whether the first frame was rendered. -/
structure StartResult (F : Type) where
  st : PlayerState F
  workerStart : Option ℕ
  renderedFirstFrame : Bool

/-- Model of `start_sequential_playback`: guard on an empty list or already playing;
reset the index to 0 when at (or past) the last file; clear the stop event,
the queue and the in-flight set; synchronously load the current frame
(stopping playback on failure); then spawn the worker — the code passes
`self.current_file_index` as its `start_index`. -/
def start_sequential_playback {F : Type} (loadF : ℕ → Option F)
    (s : PlayerState F) : StartResult F :=
  if s.fileCount = 0 ∨ s.isPlaying then ⟨s, none, false⟩
  else
    let idx := if (s.fileCount : ℤ) - 1 ≤ (s.currentFileIndex : ℤ) then 0
               else s.currentFileIndex
    let s1 : PlayerState F :=
      { s with isPlaying := true, currentFileIndex := idx,
               stopEvent := false, frameBuffer := [], loadedOrQueued := ∅ }
    match loadF idx with
    | none => ⟨stop_sequential_playback s1, none, false⟩
    | some f => ⟨{ s1 with currentData := some f }, some idx, true⟩

/-- Outcome of one `_play_next_frame` tick: the new state, whether
`update_visualization` was called this tick, and whether the next tick was
scheduled via `QTimer.singleShot`. -/
structure TickResult (F : Type) where
  st : PlayerState F
  rendered : Bool
  scheduledNext : Bool

/-- Model of `_play_next_frame`: bail out when not playing; try a non-blocking pop of
the queue — on success display that frame, render, and stop at the last
index; on an empty queue do nothing (the synchronous fallback is commented
out in the source); finally schedule the next tick while still playing with
the index inside the list, else stop. -/
def play_next_frame {F : Type} (s : PlayerState F) : TickResult F :=
  if s.isPlaying = false then ⟨s, false, false⟩
  else
    match s.frameBuffer with
    | [] =>
        if s.currentFileIndex < s.fileCount then ⟨s, false, true⟩
        else ⟨stop_sequential_playback s, false, false⟩
    | (i, f) :: rest =>
        let s1 : PlayerState F :=
          { s with currentFileIndex := i, currentData := some f, frameBuffer := rest }
        if (i : ℤ) = (s.fileCount : ℤ) - 1 then ⟨stop_sequential_playback s1, true, false⟩
        else if i < s.fileCount then ⟨s1, true, true⟩
        else ⟨stop_sequential_playback s1, true, false⟩

/-- Observable events of the prefetch worker: `ins i` — index `i` inserted
into the in-flight set (under the lock), `rd i` — the worker performs the
background read of file `i`. -/
inductive WEv
  | ins (i : ℕ)
  | rd (i : ℕ)
  deriving DecidableEq

/-- Model of `_preload_frames_worker`: starting at index `i`, while the stop event is
unset and the index is inside the list — skip an index already in the
in-flight set; otherwise insert it (under the lock) and only then read the
file, appending `(index, frame)` to the queue when the read yields a
non-empty dataset.  The `fuel` argument models cooperative cancellation: the
stop event is polled once per iteration, so a run cancelled after `fuel`
polls is exactly `preload_frames_worker … fuel …`; quantifying over `fuel`
covers every cancellation time (any `fuel ≥ n - i` is a complete run).
Returns the final in-flight set, the final queue, and the event trace. -/
def preload_frames_worker {F : Type} (loadF : ℕ → Option F) (n : ℕ) :
    ℕ → ℕ → Finset ℕ → List (ℕ × F) → Finset ℕ × List (ℕ × F) × List WEv
  | 0, _, S, buf => (S, buf, [])
  | fuel + 1, i, S, buf =>
    if n ≤ i then (S, buf, [])
    else if i ∈ S then preload_frames_worker loadF n fuel (i + 1) S buf
    else
      let buf' := match loadF i with
        | some f => buf ++ [(i, f)]
        | none => buf
      let rest := preload_frames_worker loadF n fuel (i + 1) (insert i S) buf'
      (rest.1, rest.2.1, .ins i :: .rd i :: rest.2.2)

/-! ## Boundary trimming (`update_visualization`,
vts_viewer/visualization.py:30 and vts_viewer_widget.py:1101) -/

/-- Effect of `vtkExtractGrid` with `VOI = (1, nx-2, 1, ny-2, 1, nz-2)` (inclusive):
one layer of points removed from every face, leaving `n - 2` point layers
per axis.  Point arrays are carried over. -/
def interiorGrid (g : VtsGrid) : VtsGrid :=
  { g with nx := g.nx - 2, ny := g.ny - 2, nz := g.nz - 2 }

/-- Number of cells along the x axis of a structured grid
(`points - 1`; zero for a degenerate axis). -/
def VtsGrid.cellsX (g : VtsGrid) : ℕ := g.nx - 1

/-- Number of cells along the y axis. -/
def VtsGrid.cellsY (g : VtsGrid) : ℕ := g.ny - 1

/-- Number of cells along the z axis. -/
def VtsGrid.cellsZ (g : VtsGrid) : ℕ := g.nz - 1

/-- The boundary-trimming decision shared verbatim by both
`update_visualization` implementations: when "Show with boundary" is
unchecked and `GetDimensions()` (POINT counts) is at least 3 on every axis,
render the extracted interior grid, otherwise the full grid. -/
def gridToRender (showWithBoundary : Bool) (g : VtsGrid) : VtsGrid :=
  if !showWithBoundary then
    if 3 ≤ g.nx ∧ 3 ≤ g.ny ∧ 3 ≤ g.nz then interiorGrid g else g
  else g

/-! ## Camera policy (`update_visualization`,
vts_viewer/visualization.py:17-225 and vts_viewer_widget.py:1097-1267)

The camera is modelled by its position / focal point / view-up triples; the
effect of VTK's `renderer.ResetCamera()` (a deterministic function of the
scene) is a parameter `resetCam` of the model, universally quantified in the
theorems. -/

/-- Active-camera state: position, focal point, view-up. -/
structure Camera where
  pos : ℤ × ℤ × ℤ
  focal : ℤ × ℤ × ℤ
  viewUp : ℤ × ℤ × ℤ
  deriving DecidableEq

/-- The widget inputs one `update_visualization` call reads. -/
structure RenderCfg where
  showWithBoundary : Bool
  fieldText : List Char
  mode : List Char
  glyphScaleParses : Bool
  deriving DecidableEq

/-- The mutable state `update_visualization` touches that the camera claims
are about: the current data, the active camera, and the
`should_reset_camera_on_load` flag (set by `_reset_series_state` when a new
series is loaded). -/
structure VisState where
  currentData : Option VtsGrid
  camera : Camera
  shouldResetCameraOnLoad : Bool
  deriving DecidableEq

/-- Test `HasArray(name)`: some point-data array with that name exists. -/
def hasArray (g : VtsGrid) (nm : List Char) : Bool :=
  (g.arrays.find? fun a => a.1 == nm).isSome

/-- Component count of the (first) array with the given name. -/
def arrayComps (g : VtsGrid) (nm : List Char) : Option ℕ :=
  (g.arrays.find? fun a => a.1 == nm).map (·.2)

/-- The `"_magnitude"` suffix of `array_magnitude_name`. -/
def magSuffix : List Char := strL "_magnitude"

/-- Whether a mixin `update_visualization` call reaches its final camera
block (visualization.py:217-225), i.e. none of the early `return`s fires:
data present, the (possibly trimmed) grid non-empty, a real field selected,
the scalar array resolvable (directly, or as a computable vector
magnitude), and the mode dispatch succeeding (an unknown mode returns; the
"Vector Arrows" branch returns for a non-vector field, and raises before
rendering when the glyph scale text does not parse as a float). -/
def mixinGuards (cfg : RenderCfg) (s : VisState) : Bool :=
  match s.currentData with
  | none => false
  | some g =>
    let gr := gridToRender cfg.showWithBoundary g
    if gr.numPoints = 0 then false
    else if containsSub noFieldsText cfg.fieldText then false
    else
      let isVec := cfg.fieldText.take 3 == strL "[V]"
      let fname := cfg.fieldText.drop 4
      let sname := if isVec then fname ++ magSuffix else fname
      let scalarOk :=
        if hasArray gr sname then true
        else if isVec then arrayComps gr fname == some 3
        else false
      if !scalarOk then false
      else if cfg.mode == strL "Surface" then true
      else if cfg.mode == strL "Surface with Grid" then true
      else if cfg.mode == strL "Clip" then true
      else if cfg.mode == strL "Contour" then true
      else if cfg.mode == strL "Vector Arrows" then isVec && cfg.glyphScaleParses
      else false

/-- Model of `update_visualization` of `vts_viewer/visualization.py`, restricted to
its camera effect: every early `return` leaves camera and flag untouched; a
completed call resets the camera (and clears the flag) when
`should_reset_camera_on_load` is set, and otherwise restores the camera
saved at entry — i.e. leaves it unchanged. -/
def update_visualization_mixin (resetCam : VisState → RenderCfg → Camera)
    (cfg : RenderCfg) (s : VisState) : VisState :=
  if mixinGuards cfg s then
    { s with
      camera := if s.shouldResetCameraOnLoad then resetCam s cfg else s.camera,
      shouldResetCameraOnLoad := false }
  else s

/-- One step of a render trace within one series: between two render calls
the environment may replace the displayed data (a playback frame advance)
and move the camera (user interaction) — neither touches
`should_reset_camera_on_load`, which only `_reset_series_state` sets — and
then `update_visualization` runs with the next widget inputs. -/
def envApply (inp : RenderCfg × Option VtsGrid × Camera) (s : VisState) :
    VisState :=
  { s with currentData := inp.2.1, camera := inp.2.2 }

def renderTraceStep (resetCam : VisState → RenderCfg → Camera)
    (inp : RenderCfg × Option VtsGrid × Camera) (s : VisState) : VisState :=
  update_visualization_mixin resetCam inp.1 (envApply inp s)

/-- How many calls of a render trace invoke `renderer.ResetCamera()`
(visualization.py:218 runs exactly when the call completes with the flag
still set). -/
def mixinResetCount (resetCam : VisState → RenderCfg → Camera) :
    List (RenderCfg × Option VtsGrid × Camera) → VisState → ℕ
  | [], _ => 0
  | inp :: rest, s =>
      (if mixinGuards inp.1 (envApply inp s) &&
          (envApply inp s).shouldResetCameraOnLoad then 1 else 0) +
        mixinResetCount resetCam rest (renderTraceStep resetCam inp s)

/-- Whether a widget (`vts_viewer_widget.py`) `update_visualization` call
reaches its final lines: data present, a real field selected, and the
scalar resolvable (the widget has no empty-grid or unknown-mode early
return). -/
def widgetGuards (cfg : RenderCfg) (s : VisState) : Bool :=
  match s.currentData with
  | none => false
  | some g =>
    let gr := gridToRender cfg.showWithBoundary g
    if containsSub noFieldsText cfg.fieldText then false
    else
      let isVec := cfg.fieldText.take 3 == strL "[V]"
      let fname := cfg.fieldText.drop 4
      if isVec then arrayComps gr fname == some 3 else hasArray gr fname

/-- Model of `update_visualization` of `vts_viewer_widget.py`, restricted to its
camera effect: every completed call ends with `self.renderer.ResetCamera()`
(line 1266) — unconditionally, there is no save/restore and no
`should_reset_camera_on_load` flag in this implementation. -/
def update_visualization_widget (resetCam : VisState → RenderCfg → Camera)
    (cfg : RenderCfg) (s : VisState) : VisState :=
  if widgetGuards cfg s then { s with camera := resetCam s cfg } else s

/-! ## Line probe (`on_line_changed`, vts_viewer/ui_plot_over_line.py:95 and
vts_viewer_widget.py:709 — the two copies are identical)

Coordinates are rationals.  The Euclidean norm (`np.linalg.norm` of a point
difference, and `math.sqrt(vx²+vy²+vz²)` for vector magnitudes) is not
rational-valued, so the model takes the two norm functions as parameters;
theorems quantify over them (assuming only `norm 0 = 0` where needed).
`vtkLineSource` with `SetResolution(100)` is external VTK code, modelled by
its documented semantics: `resolution + 1` evenly interpolated points from
point 1 to point 2, with no special case for coincident endpoints.
`vtkProbeFilter` keeps those points and attaches, for every source array,
its value interpolated at each point (plus a `vtkValidPointMask` array) —
modelled by sampling functions supplied with the source arrays. -/

/-- A 3-d point with rational coordinates. -/
abbrev V3 := ℚ × ℚ × ℚ

/-- Componentwise difference. -/
def sub3 (a b : V3) : V3 := (a.1 - b.1, a.2.1 - b.2.1, a.2.2 - b.2.2)

/-- Linear interpolation `p1 + t * (p2 - p1)`, componentwise. -/
def lerp3 (p1 p2 : V3) (t : ℚ) : V3 :=
  (p1.1 + t * (p2.1 - p1.1),
   p1.2.1 + t * (p2.2.1 - p1.2.1),
   p1.2.2 + t * (p2.2.2 - p1.2.2))

/-- Model of the external `vtkLineSource` output with resolution `res`:
`res + 1` points interpolated from `p1` to `p2`. -/
def lineSourcePoints (p1 p2 : V3) (res : ℕ) : List V3 :=
  (List.range (res + 1)).map fun i : ℕ =>
    lerp3 p1 p2 ((Nat.cast i : ℚ) / (Nat.cast res : ℚ))

/-- One array of the probe output: name plus the sampled values as a
function of the probe point (scalar) or three components (vector). -/
inductive ProbeArr
  | scalar (name : List Char) (f : V3 → ℚ)
  | vector (name : List Char) (f : V3 → V3)

/-- The running-total loop body for the cumulative arc length. -/
def arcGo (normV : V3 → ℚ) : V3 → ℚ → List V3 → List ℚ
  | _, _, [] => []
  | prev, tot, q :: qs =>
      (tot + normV (sub3 q prev)) ::
        arcGo normV q (tot + normV (sub3 q prev)) qs

/-- Column `arc_len = [0.0]` followed by the cumulative
`np.linalg.norm(b - a)` totals of consecutive probe points. -/
def arcLens (normV : V3 → ℚ) : List V3 → List ℚ
  | [] => [0]
  | p :: rest => 0 :: arcGo normV p 0 rest

/-- The table columns one probe array contributes: one column for a scalar,
the X/Y/Z components plus the magnitude column for a vector. -/
def probeColumns (mag3 : V3 → ℚ) (pts : List V3) :
    ProbeArr → List (List Char × List ℚ)
  | .scalar nm f => [(nm, pts.map f)]
  | .vector nm f =>
      [(nm ++ strL "_X", pts.map fun p => (f p).1),
       (nm ++ strL "_Y", pts.map fun p => (f p).2.1),
       (nm ++ strL "_Z", pts.map fun p => (f p).2.2),
       (nm ++ strL "_Magnitude", pts.map fun p => mag3 (f p))]

/-- Model of `on_line_changed`: sample 100 segments between the endpoints, build the
`arc_length` column and, per probed array, its value column(s); the result
is the column list of the `pandas.DataFrame`. -/
def on_line_changed (normV : V3 → ℚ) (mag3 : V3 → ℚ) (src : List ProbeArr)
    (p1 p2 : V3) : List (List Char × List ℚ) :=
  (strL "arc_length", arcLens normV (lineSourcePoints p1 p2 100)) ::
    src.flatMap (probeColumns mag3 (lineSourcePoints p1 p2 100))

/-! ## Helper lemmas -/

theorem strL_vts : strL ".vts" = ['.', 'v', 't', 's'] := rfl

theorem endsWithVts_append (stem : List Char) :
    endsWithVts (stem ++ strL ".vts") = true := by
  simp [endsWithVts, strL_vts, List.reverse_append, List.take]

theorem base_of_append (stem : List Char) :
    ((stem ++ strL ".vts").reverse.drop 4).reverse = stem := by
  simp [strL_vts, List.reverse_append, List.drop]

theorem dropTrailingDigits_eq_nil (cs : List Char)
    (h : ∀ c ∈ cs, c.isDigit = true) : dropTrailingDigits cs = [] := by
  unfold dropTrailingDigits
  have : cs.reverse.dropWhile Char.isDigit = [] := by
    rw [List.dropWhile_eq_nil_iff]
    intro c hc
    exact h c (List.mem_reverse.mp hc)
  simp [this]

/-! ## C6 — series-prefix extraction -/

/-- C6: for every file name of the form `stem ++ ".vts"` whose stem ends in
at least one digit (`stem = s ++ ds` with `ds` a nonempty run of digits),
`_extract_series_prefix` returns exactly the stem with its longest trailing
run of digits removed, falling back to the whole stem when the stem is
entirely digits; the returned value is never empty. -/
theorem extract_series_prefix_spec (s ds : List Char) (hds : ds ≠ [])
    (_hdig : ∀ c ∈ ds, c.isDigit = true) :
    extractSeriesPfx ((s ++ ds) ++ strL ".vts") =
        some (if dropTrailingDigits (s ++ ds) = [] then s ++ ds
              else dropTrailingDigits (s ++ ds)) ∧
    ((∀ c ∈ s ++ ds, c.isDigit = true) →
        extractSeriesPfx ((s ++ ds) ++ strL ".vts") = some (s ++ ds)) ∧
    ∀ r, extractSeriesPfx ((s ++ ds) ++ strL ".vts") = some r → r ≠ [] := by
  have hmain : extractSeriesPfx ((s ++ ds) ++ strL ".vts") =
      some (if dropTrailingDigits (s ++ ds) = [] then s ++ ds
            else dropTrailingDigits (s ++ ds)) := by
    rw [extractSeriesPfx, endsWithVts_append, if_pos rfl, base_of_append]
    by_cases h : dropTrailingDigits (s ++ ds) = [] <;>
      simp [h, List.isEmpty_iff]
  refine ⟨hmain, ?_, ?_⟩
  · intro hall
    rw [hmain, if_pos (dropTrailingDigits_eq_nil _ hall)]
  · intro r hr
    rw [hmain] at hr
    have hne : s ++ ds ≠ [] := by
      intro h
      exact hds (List.append_eq_nil.mp h).2
    by_cases h : dropTrailingDigits (s ++ ds) = []
    · rw [if_pos h] at hr
      exact Option.some_injective _ hr ▸ hne
    · rw [if_neg h] at hr
      exact Option.some_injective _ hr ▸ h

/-- Witness for C6 at the file name `data123.vts`. -/
theorem extract_series_prefix_spec_witness :
    extractSeriesPfx ((strL "data" ++ strL "123") ++ strL ".vts") =
      some (strL "data") := by
  have h := (extract_series_prefix_spec (strL "data") (strL "123")
      (by decide) (by decide)).1
  rw [h]
  decide

/-! ## C7 — zero-point datasets are load failures -/

/-- C7: when the parsed dataset has zero points, `load_single_vts_file`
returns `False` and sets `self.current_data` to `None` — the zero-point
grid is not kept for rendering. -/
theorem load_zero_points_fails (g : VtsGrid) (h : g.numPoints = 0) :
    load_single_vts_file (.ok (some g)) = (false, none) := by
  simp [load_single_vts_file, h]

/-- Witness for C7: a structurally parsed 0×5×5 grid. -/
theorem load_zero_points_fails_witness :
    load_single_vts_file (.ok (some ⟨0, 5, 5, []⟩)) = (false, none) :=
  load_zero_points_fails ⟨0, 5, 5, []⟩ (by decide)

/-! ## C5 — series ordering under resolve and refresh -/

theorem sorted_insertionSort_key {α β : Type} [LinearOrder β] (k : α → β)
    (l : List α) :
    List.Sorted (fun a b => k a ≤ k b)
      (List.insertionSort (fun a b => k a ≤ k b) l) := by
  haveI : IsTotal α fun a b => k a ≤ k b := ⟨fun a b => le_total (k a) (k b)⟩
  haveI : IsTrans α fun a b => k a ≤ k b := ⟨fun _ _ _ h1 h2 => le_trans h1 h2⟩
  exact List.sorted_insertionSort _ l

theorem neg_one_le_extract_number (pfx name : List Char) :
    -1 ≤ extract_number pfx name := by
  unfold extract_number
  simp only
  split
  · exact le_refl _
  · exact le_trans (by norm_num) (Int.natCast_nonneg _)

/-- C5 (amended): `load_vts_from_folder` returns a permutation of the
matching files sorted ascending by `extract_index` — where a suffix with no
parseable digits is the key `⊤`, so such files end up at the end of the
list — but `refresh_file_list` re-sorts by `extract_number`, which maps a
digit-less suffix to `-1`, placing those files at the BEGINNING of the
list, not the end. -/
theorem series_sort_spec (pfx : List Char) (files : List (List Char)) :
    (resolveSortFiles pfx files).Perm files ∧
    List.Sorted (fun a b => extract_index pfx a ≤ extract_index pfx b)
      (resolveSortFiles pfx files) ∧
    List.Pairwise (fun a b => extract_index pfx a = ⊤ → extract_index pfx b = ⊤)
      (resolveSortFiles pfx files) ∧
    (refreshSortFiles pfx files).Perm files ∧
    List.Sorted (fun a b => extract_number pfx a ≤ extract_number pfx b)
      (refreshSortFiles pfx files) ∧
    List.Pairwise (fun a b => extract_number pfx b = -1 → extract_number pfx a = -1)
      (refreshSortFiles pfx files) := by
  have h1 := sorted_insertionSort_key (extract_index pfx) files
  have h2 := sorted_insertionSort_key (extract_number pfx) files
  refine ⟨List.perm_insertionSort _ _, h1, ?_, List.perm_insertionSort _ _, h2, ?_⟩
  · exact List.Pairwise.imp (fun hab ha => top_le_iff.mp (ha ▸ hab)) h1
  · refine List.Pairwise.imp (fun hab hb => ?_) h2
    exact le_antisymm (hb ▸ hab) (neg_one_le_extract_number _ _)

/-- Witness for C5's amended statement at a concrete two-file folder. -/
theorem series_sort_spec_witness :
    (resolveSortFiles (strL "step") [strL "step5.vts", strL "stepABC.vts"]).Perm
      [strL "step5.vts", strL "stepABC.vts"] :=
  (series_sort_spec (strL "step") [strL "step5.vts", strL "stepABC.vts"]).1

/-- C5 counterexample: for the folder `{step5.vts, stepABC.vts}` with
prefix `step`, `load_vts_from_folder` puts the digit-less file last, but
`refresh_file_list` puts it FIRST (its key is `-1`), so the claimed
ordering does not hold after a refresh re-scan. -/
theorem refresh_nondigit_first_counterexample :
    resolveSortFiles (strL "step") [strL "step5.vts", strL "stepABC.vts"] =
      [strL "step5.vts", strL "stepABC.vts"] ∧
    refreshSortFiles (strL "step") [strL "step5.vts", strL "stepABC.vts"] =
      [strL "stepABC.vts", strL "step5.vts"] ∧
    extract_index (strL "step") (strL "stepABC.vts") = ⊤ ∧
    extract_number (strL "step") (strL "stepABC.vts") = -1 := by
  refine ⟨?_, ?_, ?_, ?_⟩ <;> decide

/-! ## C9 — boundary trimming condition -/

/-- C9 (amended): with "include boundary layer" unchecked, both
`update_visualization` implementations render the trimmed interior grid
exactly when every axis has at least 3 POINT layers (`GetDimensions()`
entries, i.e. at least 2 cells); with the flag checked, or any axis below 3
points, the full grid is rendered unchanged. -/
theorem grid_to_render_spec (b : Bool) (g : VtsGrid) :
    (b = false → 3 ≤ g.nx → 3 ≤ g.ny → 3 ≤ g.nz →
        gridToRender b g = interiorGrid g) ∧
    (b = true → gridToRender b g = g) ∧
    ((g.nx < 3 ∨ g.ny < 3 ∨ g.nz < 3) → gridToRender b g = g) := by
  refine ⟨?_, ?_, ?_⟩
  · rintro rfl hx hy hz
    simp [gridToRender, hx, hy, hz]
  · rintro rfl
    simp [gridToRender]
  · intro hlt
    have hcond : ¬(3 ≤ g.nx ∧ 3 ≤ g.ny ∧ 3 ≤ g.nz) := by omega
    cases b <;> simp [gridToRender, hcond]

/-- Witness for C9's amended statement: a 4×4×4-point grid is trimmed, a
checked flag leaves it alone. -/
theorem grid_to_render_spec_witness :
    gridToRender false ⟨4, 4, 4, []⟩ = interiorGrid ⟨4, 4, 4, []⟩ ∧
    gridToRender true ⟨4, 4, 4, []⟩ = ⟨4, 4, 4, []⟩ :=
  ⟨(grid_to_render_spec false ⟨4, 4, 4, []⟩).1 rfl (by decide) (by decide)
      (by decide),
   (grid_to_render_spec true ⟨4, 4, 4, []⟩).2.1 rfl⟩

/-- C9 counterexample: a grid with 3 points — hence only 2 cells — along
every axis.  The claim says the full grid is rendered (fewer than 3 cells);
the code trims it to the 1×1×1-point interior. -/
theorem grid_to_render_two_cells_counterexample :
    gridToRender false ⟨3, 3, 3, []⟩ ≠ (⟨3, 3, 3, []⟩ : VtsGrid) ∧
    gridToRender false ⟨3, 3, 3, []⟩ = interiorGrid ⟨3, 3, 3, []⟩ ∧
    VtsGrid.cellsX ⟨3, 3, 3, []⟩ = 2 ∧
    VtsGrid.cellsY ⟨3, 3, 3, []⟩ = 2 ∧
    VtsGrid.cellsZ ⟨3, 3, 3, []⟩ = 2 := by
  refine ⟨?_, ?_, ?_, ?_, ?_⟩ <;> decide

/-! ## C4 — camera policy -/

theorem update_mixin_flag_false (resetCam : VisState → RenderCfg → Camera)
    (cfg : RenderCfg) (s : VisState) (h : s.shouldResetCameraOnLoad = false) :
    update_visualization_mixin resetCam cfg s = s := by
  unfold update_visualization_mixin
  split
  · cases s
    simp_all
  · rfl

theorem mixinResetCount_flag_false (resetCam : VisState → RenderCfg → Camera)
    (tr : List (RenderCfg × Option VtsGrid × Camera)) :
    ∀ s : VisState, s.shouldResetCameraOnLoad = false →
      mixinResetCount resetCam tr s = 0 := by
  induction tr with
  | nil => intro s _; rfl
  | cons inp rest ih =>
    intro s h
    have h' : (envApply inp s).shouldResetCameraOnLoad = false := h
    rw [mixinResetCount]
    simp only [renderTraceStep]
    rw [update_mixin_flag_false _ _ _ h']
    simp [h', ih _ h']

/-- C4 (amended): in `vts_viewer/visualization.py`'s `update_visualization`
(the mixin implementation), a call made while `should_reset_camera_on_load`
is cleared — i.e. any call after the first completed render of a series —
leaves the camera position, focal point and view-up (and the whole state)
unchanged; over any render trace of one series, `ResetCamera` runs at most
once, namely at the first completed call, which also clears the flag.  The
legacy `vts_viewer_widget.py` `update_visualization` instead ends every
completed call with `renderer.ResetCamera()`.  All statements hold for
every possible `ResetCamera` semantics `resetCam`. -/
theorem camera_policy (resetCam : VisState → RenderCfg → Camera) :
    (∀ cfg s, s.shouldResetCameraOnLoad = false →
        update_visualization_mixin resetCam cfg s = s) ∧
    (∀ tr s, mixinResetCount resetCam tr s ≤ 1) ∧
    (∀ cfg s, s.shouldResetCameraOnLoad = true → mixinGuards cfg s = true →
        (update_visualization_mixin resetCam cfg s).camera = resetCam s cfg ∧
        (update_visualization_mixin resetCam cfg s).shouldResetCameraOnLoad
          = false) ∧
    (∀ cfg s, s.shouldResetCameraOnLoad = true → mixinGuards cfg s = false →
        update_visualization_mixin resetCam cfg s = s) ∧
    (∀ cfg s, widgetGuards cfg s = true →
        (update_visualization_widget resetCam cfg s).camera = resetCam s cfg) := by
  refine ⟨update_mixin_flag_false resetCam, ?_, ?_, ?_, ?_⟩
  · intro tr
    induction tr with
    | nil => intro s; simp [mixinResetCount]
    | cons inp rest ih =>
      intro s
      by_cases hf : s.shouldResetCameraOnLoad = true
      · by_cases hg : mixinGuards inp.1 (envApply inp s) = true
        · have hafter : (renderTraceStep resetCam inp s).shouldResetCameraOnLoad
              = false := by
            simp only [renderTraceStep]
            unfold update_visualization_mixin
            rw [if_pos hg]
        
          rw [mixinResetCount, mixinResetCount_flag_false _ _ _ hafter]
          have hflag : (envApply inp s).shouldResetCameraOnLoad = true := hf
          simp [hg, hflag]
        · simp only [Bool.not_eq_true] at hg
          rw [mixinResetCount]
          simp only [hg, Bool.false_and, if_neg (Bool.false_ne_true),
            Nat.zero_add]
          exact ih _
      · simp only [Bool.not_eq_true] at hf
        have h0 := mixinResetCount_flag_false resetCam (inp :: rest) s hf
        omega
  · intro cfg s h1 h2
    unfold update_visualization_mixin
    rw [if_pos h2]
    simp [h1]
  · intro cfg s _ h2
    unfold update_visualization_mixin
    rw [if_neg (by simp [h2])]
  · intro cfg s h
    unfold update_visualization_widget
    rw [if_pos h]

/-- Witness for C4's amended statement: a second render of the same frame
and config moves nothing. -/
theorem camera_policy_witness :
    update_visualization_mixin (fun _ _ => ⟨(0, 0, 0), (0, 0, 0), (0, 0, 1)⟩)
        ⟨true, strL "[S] T", strL "Surface", true⟩
        ⟨some ⟨2, 2, 2, [(strL "T", 1)]⟩, ⟨(5, 5, 5), (0, 0, 0), (0, 0, 1)⟩,
          false⟩ =
      ⟨some ⟨2, 2, 2, [(strL "T", 1)]⟩, ⟨(5, 5, 5), (0, 0, 0), (0, 0, 1)⟩,
        false⟩ :=
  (camera_policy (fun _ _ => ⟨(0, 0, 0), (0, 0, 0), (0, 0, 1)⟩)).1
    ⟨true, strL "[S] T", strL "Surface", true⟩
    ⟨some ⟨2, 2, 2, [(strL "T", 1)]⟩, ⟨(5, 5, 5), (0, 0, 0), (0, 0, 1)⟩, false⟩
    rfl

/-- C4 counterexample: in the widget implementation (the one
`MInDes-UI.py` instantiates), a render call AFTER the first render of the
series moves the camera: with `ResetCamera` framing the scene at the
origin, a camera the user had moved to position (9,9,9) is yanked back by
the second call, because visualization line 1266 runs `ResetCamera()`
unconditionally on every completed call. -/
theorem widget_second_render_moves_camera :
    widgetGuards ⟨true, strL "[S] T", strL "Surface", true⟩
        ⟨some ⟨2, 2, 2, [(strL "T", 1)]⟩, ⟨(9, 9, 9), (1, 1, 1), (0, 1, 0)⟩,
          false⟩ = true ∧
    (update_visualization_widget (fun _ _ => ⟨(0, 0, 0), (0, 0, 0), (0, 0, 1)⟩)
        ⟨true, strL "[S] T", strL "Surface", true⟩
        ⟨some ⟨2, 2, 2, [(strL "T", 1)]⟩, ⟨(9, 9, 9), (1, 1, 1), (0, 1, 0)⟩,
          false⟩).camera ≠ ⟨(9, 9, 9), (1, 1, 1), (0, 1, 0)⟩ := by
  refine ⟨?_, ?_⟩ <;> decide

/-! ## C1 — in-flight set invariants of the prefetch worker -/

theorem worker_rd_ge {F : Type} (loadF : ℕ → Option F) (n : ℕ) :
    ∀ (fuel i : ℕ) (S : Finset ℕ) (buf : List (ℕ × F)) (j : ℕ),
      WEv.rd j ∈ (preload_frames_worker loadF n fuel i S buf).2.2 → i ≤ j := by
  intro fuel
  induction fuel with
  | zero =>
    intro i S buf j h
    simp [preload_frames_worker] at h
  | succ fuel ih =>
    intro i S buf j h
    rw [preload_frames_worker] at h
    by_cases hni : n ≤ i
    · rw [if_pos hni] at h
      simp at h
    · rw [if_neg hni] at h
      by_cases hmem : i ∈ S
      · rw [if_pos hmem] at h
        exact le_trans (Nat.le_succ i) (ih _ _ _ _ h)
      · rw [if_neg hmem] at h
        simp only [List.mem_cons] at h
        rcases h with h | h | h
        · cases h
        · cases h
          exact le_refl _
        · exact le_trans (Nat.le_succ i) (ih _ _ _ _ h)

theorem worker_rd_not_mem {F : Type} (loadF : ℕ → Option F) (n : ℕ) :
    ∀ (fuel i : ℕ) (S : Finset ℕ) (buf : List (ℕ × F)) (j : ℕ), j ∈ S →
      WEv.rd j ∉ (preload_frames_worker loadF n fuel i S buf).2.2 := by
  intro fuel
  induction fuel with
  | zero =>
    intro i S buf j _ h
    simp [preload_frames_worker] at h
  | succ fuel ih =>
    intro i S buf j hj h
    rw [preload_frames_worker] at h
    by_cases hni : n ≤ i
    · rw [if_pos hni] at h
      simp at h
    · rw [if_neg hni] at h
      by_cases hmem : i ∈ S
      · rw [if_pos hmem] at h
        exact ih _ _ _ _ hj h
      · rw [if_neg hmem] at h
        simp only [List.mem_cons] at h
        rcases h with h | h | h
        · cases h
        · cases h
          exact hmem hj
        · exact ih _ _ _ _ (Finset.mem_insert_of_mem hj) h

theorem worker_ins_before_rd {F : Type} (loadF : ℕ → Option F) (n : ℕ) :
    ∀ (fuel i : ℕ) (S : Finset ℕ) (buf : List (ℕ × F)) (j : ℕ)
      (l1 l2 : List WEv),
      (preload_frames_worker loadF n fuel i S buf).2.2 = l1 ++ WEv.rd j :: l2 →
      WEv.ins j ∈ l1 := by
  intro fuel
  induction fuel with
  | zero =>
    intro i S buf j l1 l2 h
    rw [preload_frames_worker] at h
    exact absurd h.symm (List.append_ne_nil_of_right_ne_nil _ (by simp))
  | succ fuel ih =>
    intro i S buf j l1 l2 h
    rw [preload_frames_worker] at h
    by_cases hni : n ≤ i
    · rw [if_pos hni] at h
      exact absurd h.symm (List.append_ne_nil_of_right_ne_nil _ (by simp))
    · rw [if_neg hni] at h
      by_cases hmem : i ∈ S
      · rw [if_pos hmem] at h
        exact ih _ _ _ _ l1 l2 h
      · rw [if_neg hmem] at h
        match l1, h with
        | [], h =>
            simp only [List.nil_append, List.cons.injEq] at h
            exact absurd h.1 (by simp)
        | [x], h =>
            simp only [List.cons_append, List.nil_append,
              List.cons.injEq] at h
            cases h.2.1
            exact h.1 ▸ List.mem_singleton.mpr rfl
        | x :: y :: l1', h =>
            simp only [List.cons_append, List.cons.injEq] at h
            have := ih _ _ _ _ l1' l2 h.2.2
            simp [this]

theorem worker_rd_count {F : Type} (loadF : ℕ → Option F) (n : ℕ) :
    ∀ (fuel i : ℕ) (S : Finset ℕ) (buf : List (ℕ × F)) (j : ℕ),
      ((preload_frames_worker loadF n fuel i S buf).2.2).count (WEv.rd j) ≤ 1 := by
  intro fuel
  induction fuel with
  | zero =>
    intro i S buf j
    simp [preload_frames_worker]
  | succ fuel ih =>
    intro i S buf j
    rw [preload_frames_worker]
    by_cases hni : n ≤ i
    · rw [if_pos hni]
      simp
    · rw [if_neg hni]
      by_cases hmem : i ∈ S
      · rw [if_pos hmem]
        exact ih _ _ _ _
      · rw [if_neg hmem]
        by_cases hij : j = i
        · subst hij
          have hnot : WEv.rd j ∉
              (preload_frames_worker loadF n fuel (j + 1) (insert j S)
                (match loadF j with
                  | some f => buf ++ [(j, f)]
                  | none => buf)).2.2 := by
            intro hmem'
            exact absurd (worker_rd_ge loadF n fuel _ _ _ _ hmem') (by omega)
          simp [List.count_cons, List.count_eq_zero_of_not_mem hnot]
        · have h1 := ih (i + 1) (insert i S)
            (match loadF i with
              | some f => buf ++ [(i, f)]
              | none => buf) j
          rw [List.count_cons, List.count_cons, if_neg (by simp; omega),
            if_neg (by simp)]
          simpa using h1

theorem worker_set_monotone {F : Type} (loadF : ℕ → Option F) (n : ℕ) :
    ∀ (fuel i : ℕ) (S : Finset ℕ) (buf : List (ℕ × F)),
      S ⊆ (preload_frames_worker loadF n fuel i S buf).1 := by
  intro fuel
  induction fuel with
  | zero =>
    intro i S buf
    rw [preload_frames_worker]
  | succ fuel ih =>
    intro i S buf
    rw [preload_frames_worker]
    by_cases hni : n ≤ i
    · rw [if_pos hni]
    · rw [if_neg hni]
      by_cases hmem : i ∈ S
      · rw [if_pos hmem]
        exact ih _ _ _
      · rw [if_neg hmem]
        exact subset_trans (Finset.subset_insert i S) (ih _ _ _)

/-- C1: over any worker run (any start index, any cancellation time `fuel`,
any initial in-flight set and queue): (i) every background read of an index
is strictly preceded in the event trace by the insertion of that index into
the in-flight set; (ii) an index already in the set is never read by the
worker; (iii) the worker never removes indices — the set only grows (it is
cleared wholesale only by `start_sequential_playback`, and neither a
playback tick nor `stop_sequential_playback` touches it, conjuncts v–vii);
(iv) hence each index is background-read at most once per session. -/
theorem worker_inflight_invariants :
    ∀ (F : Type) (loadF : ℕ → Option F) (n fuel i : ℕ) (S : Finset ℕ)
      (buf : List (ℕ × F)) (j : ℕ),
      (∀ l1 l2,
          (preload_frames_worker loadF n fuel i S buf).2.2 =
            l1 ++ WEv.rd j :: l2 → WEv.ins j ∈ l1) ∧
      (j ∈ S → WEv.rd j ∉ (preload_frames_worker loadF n fuel i S buf).2.2) ∧
      S ⊆ (preload_frames_worker loadF n fuel i S buf).1 ∧
      ((preload_frames_worker loadF n fuel i S buf).2.2).count (WEv.rd j) ≤ 1 ∧
      (∀ (s : PlayerState F),
          (play_next_frame s).st.loadedOrQueued = s.loadedOrQueued) ∧
      (∀ (s : PlayerState F),
          (stop_sequential_playback s).loadedOrQueued = s.loadedOrQueued) ∧
      (∀ (s : PlayerState F),
          (start_sequential_playback loadF s).st.loadedOrQueued = ∅ ∨
          (start_sequential_playback loadF s).st.loadedOrQueued =
            s.loadedOrQueued) := by
  intro F loadF n fuel i S buf j
  refine ⟨fun l1 l2 => worker_ins_before_rd loadF n fuel i S buf j l1 l2,
    worker_rd_not_mem loadF n fuel i S buf j,
    worker_set_monotone loadF n fuel i S buf,
    worker_rd_count loadF n fuel i S buf j, ?_, fun s => rfl, ?_⟩
  · intro s
    unfold play_next_frame
    split
    · rfl
    · cases hb : s.frameBuffer with
      | nil =>
        simp only [hb]
        split <;> rfl
      | cons p rest =>
        obtain ⟨pi, pf⟩ := p
        simp only [hb]
        split
        · rfl
        · split <;> rfl
  · intro s
    unfold start_sequential_playback
    split
    · right
      rfl
    · left
      dsimp only
      cases hload : loadF (if (s.fileCount : ℤ) - 1 ≤ (s.currentFileIndex : ℤ)
        then 0 else s.currentFileIndex) <;> simp [hload, stop_sequential_playback]

/-- Witness for C1 at a concrete session: index 2 is already in-flight, so
the worker never reads it again. -/
theorem worker_inflight_invariants_witness :
    WEv.rd 2 ∉ (preload_frames_worker (fun i => some i) 5 10 1 {2} []).2.2 :=
  ((worker_inflight_invariants ℕ (fun i => some i) 5 10 1 {2} [] 2).2.1)
    (by decide)

/-! ## C2 — the Stopped→Playing transition -/

/-- C2: evaluating the code at the failing input — a fresh 3-file series
with `current_file_index = 0` and every file readable.  The transition does
reset the in-flight set and queue and does load frame 0 synchronously
(`currentData = some 0`), but it starts `_preload_frames_worker` at
`start_index = current_file_index = 0`, NOT at index 1 as the claim (and
the code's own comment, data_loader.py:271) state: the worker's very first
event re-reads frame 0 and queues `(0, frame0)` again. -/
theorem start_playback_worker_reloads_frame_zero :
    (start_sequential_playback (fun i => some i)
        (⟨3, 0, none, [], {0, 1}, true, false⟩ : PlayerState ℕ)).st.currentData
      = some 0 ∧
    (start_sequential_playback (fun i => some i)
        (⟨3, 0, none, [], {0, 1}, true, false⟩ : PlayerState ℕ)).st.loadedOrQueued
      = ∅ ∧
    (start_sequential_playback (fun i => some i)
        (⟨3, 0, none, [], {0, 1}, true, false⟩ : PlayerState ℕ)).st.frameBuffer
      = [] ∧
    (start_sequential_playback (fun i => some i)
        (⟨3, 0, none, [], {0, 1}, true, false⟩ : PlayerState ℕ)).workerStart
      = some 0 ∧
    (preload_frames_worker (fun i => some i) 3 10 0 ∅ []).2.2 =
      [WEv.ins 0, WEv.rd 0, WEv.ins 1, WEv.rd 1, WEv.ins 2, WEv.rd 2] ∧
    (preload_frames_worker (fun i => some i) 3 10 0 ∅ []).2.1 =
      [(0, 0), (1, 1), (2, 2)] := by
  refine ⟨rfl, ?_, ?_, ?_, ?_, ?_⟩ <;> decide

/-! ## C3 — an empty-queue tick changes nothing -/

/-- C3: when a playback tick finds the frame queue empty, no synchronous
load happens: the frame index, the dataset and the displayed frame are
unchanged, `update_visualization` is not called, and — while still playing
with the index inside the series — the next tick is scheduled (with the
state completely untouched). -/
theorem tick_empty_buffer_skips (F : Type) (s : PlayerState F)
    (hp : s.isPlaying = true) (hb : s.frameBuffer = []) :
    (play_next_frame s).st.currentFileIndex = s.currentFileIndex ∧
    (play_next_frame s).st.currentData = s.currentData ∧
    (play_next_frame s).rendered = false ∧
    (s.currentFileIndex < s.fileCount →
      (play_next_frame s).scheduledNext = true ∧ (play_next_frame s).st = s) := by
  unfold play_next_frame
  rw [hp]
  simp only [Bool.true_eq_false, if_false, hb]
  by_cases hlt : s.currentFileIndex < s.fileCount
  · simp [hlt]
  · simp [hlt, stop_sequential_playback]

/-- Witness for C3: a mid-series playing state with an empty queue. -/
theorem tick_empty_buffer_skips_witness :
    (play_next_frame (⟨2, 0, none, [], ∅, false, true⟩ : PlayerState ℕ)).rendered
        = false ∧
    (play_next_frame (⟨2, 0, none, [], ∅, false, true⟩ : PlayerState ℕ)).scheduledNext
        = true :=
  ⟨(tick_empty_buffer_skips ℕ ⟨2, 0, none, [], ∅, false, true⟩ rfl rfl).2.2.1,
   ((tick_empty_buffer_skips ℕ ⟨2, 0, none, [], ∅, false, true⟩ rfl rfl).2.2.2
      (by decide)).1⟩

/-! ## C10 — field-selector contents and selection restoration -/

theorem lexLe_total : ∀ a b : List Char, lexLe a b = true ∨ lexLe b a = true := by
  intro a
  induction a with
  | nil => intro b; left; rfl
  | cons x xs ih =>
    intro b
    cases b with
    | nil => right; rfl
    | cons y ys =>
      by_cases h1 : x.toNat < y.toNat
      · left
        simp [lexLe, h1]
      · by_cases h2 : y.toNat < x.toNat
        · right
          simp [lexLe, h2]
        · rcases ih ys with h | h
          · left
            simp [lexLe, h1, h2, h]
          · right
            simp [lexLe, h1, h2, h]

theorem lexLe_trans : ∀ a b c : List Char,
    lexLe a b = true → lexLe b c = true → lexLe a c = true := by
  intro a
  induction a with
  | nil => intro b c _ _; rfl
  | cons x xs ih =>
    intro b c hab hbc
    cases b with
    | nil => simp [lexLe] at hab
    | cons y ys =>
      cases c with
      | nil => simp [lexLe] at hbc
      | cons z zs =>
        simp only [lexLe] at hab hbc ⊢
        by_cases h1 : x.toNat < y.toNat
        · by_cases h2 : y.toNat < z.toNat
          · simp [show x.toNat < z.toNat by omega]
          · by_cases h3 : z.toNat < y.toNat
            · simp [h2, h3] at hbc
            · have : y.toNat = z.toNat := by omega
              simp [show x.toNat < z.toNat by omega]
        · by_cases h1' : y.toNat < x.toNat
          · simp [h1, h1'] at hab
          · have hxy : x.toNat = y.toNat := by omega
            by_cases h2 : y.toNat < z.toNat
            · simp [show x.toNat < z.toNat by omega]
            · by_cases h3 : z.toNat < y.toNat
              · simp [h2, h3] at hbc
              · have hyz : y.toNat = z.toNat := by omega
                simp [h1, h1', hxy, hyz] at hab hbc ⊢
                exact ih _ _ hab hbc

theorem fieldKeyLe_total : ∀ x y : FieldItem,
    fieldKeyLe x y = true ∨ fieldKeyLe y x = true := by
  intro x y
  unfold fieldKeyLe
  cases hx : tagBit x.tag <;> cases hy : tagBit y.tag <;>
    simp [hx, hy, lexLe_total x.name y.name]

theorem fieldKeyLe_trans : ∀ x y z : FieldItem,
    fieldKeyLe x y = true → fieldKeyLe y z = true → fieldKeyLe x z = true := by
  intro x y z hxy hyz
  unfold fieldKeyLe at hxy hyz ⊢
  cases hx : tagBit x.tag <;> cases hy : tagBit y.tag <;>
      cases hz : tagBit z.tag <;>
    simp_all [lexLe_trans x.name y.name z.name]

theorem lastIdxOf_get : ∀ (l : List FieldItem) (nm : List Char) (k : ℕ),
    lastIdxOf nm l = some k → ∃ x, l.get? k = some x ∧ x.name = nm := by
  intro l
  induction l with
  | nil => intro nm k h; simp [lastIdxOf] at h
  | cons x xs ih =>
    intro nm k h
    rw [lastIdxOf] at h
    cases htail : lastIdxOf nm xs with
    | some k' =>
      rw [htail] at h
      cases h
      obtain ⟨y, hy1, hy2⟩ := ih nm k' htail
      exact ⟨y, by simpa using hy1, hy2⟩
    | none =>
      rw [htail] at h
      by_cases hx : x.name = nm
      · rw [if_pos hx] at h
        cases h
        exact ⟨x, rfl, hx⟩
      · rw [if_neg hx] at h
        cases h

theorem lastIdxOf_eq_none : ∀ (l : List FieldItem) (nm : List Char),
    lastIdxOf nm l = none ↔ ∀ x ∈ l, x.name ≠ nm := by
  intro l
  induction l with
  | nil => intro nm; simp [lastIdxOf]
  | cons x xs ih =>
    intro nm
    rw [lastIdxOf]
    cases htail : lastIdxOf nm xs with
    | some k' =>
      simp only [reduceCtorEq, false_iff, not_forall]
      have : ¬ ∀ y ∈ xs, y.name ≠ nm := by
        rw [← ih nm]
        simp [htail]
      push_neg at this
      obtain ⟨y, hy, hyn⟩ := this
      exact ⟨y, by simp [hy], by simp [hyn]⟩
    | none =>
      have htl := (ih nm).mp htail
      by_cases hx : x.name = nm
      · simp [hx]
      · simp only [if_neg hx]
        simp only [true_iff]
        intro y hy
        rcases List.mem_cons.mp hy with rfl | hy'
        · exact hx
        · exact htl y hy'

theorem populate_eq (arrays : List (List Char × ℕ))
    (prevText : Option (List Char)) :
    (sortFields (fieldsOf arrays) = [] ∧
        populate_field_combos arrays prevText = ⟨[noFieldsText], [], 0⟩) ∨
    (sortFields (fieldsOf arrays) ≠ [] ∧
        populate_field_combos arrays prevText =
          ⟨(sortFields (fieldsOf arrays)).map displayOf,
            sortFields (fieldsOf arrays),
            match currentNameOf prevText with
            | some nm => (lastIdxOf nm (sortFields (fieldsOf arrays))).getD 0
            | none => 0⟩) := by
  unfold populate_field_combos
  by_cases he : (sortFields (fieldsOf arrays)).isEmpty
  · left
    exact ⟨List.isEmpty_iff.mp he, by simp [he]⟩
  · right
    refine ⟨fun h => he (List.isEmpty_iff.mpr h), ?_⟩
    simp only [he, Bool.false_eq_true, if_false]

/-- C10: after any frame load, the combo lists exactly the 1-component
(scalar) and 3-component (vector) point arrays with nonempty names (other
component counts omitted), scalars strictly before vectors and
lexicographically by name within each kind; if a field with the previously
selected raw name is present, the selected entry has that name, otherwise
the first entry (index 0) is selected. -/
theorem populate_field_combos_spec (arrays : List (List Char × ℕ))
    (prevText : Option (List Char)) :
    (populate_field_combos arrays prevText).entries.Perm (fieldsOf arrays) ∧
    List.Sorted (fun x y => fieldKeyLe x y = true)
      (populate_field_combos arrays prevText).entries ∧
    List.Pairwise (fun x y => x.tag = FTag.vector → y.tag = FTag.vector)
      (populate_field_combos arrays prevText).entries ∧
    List.Pairwise (fun x y => x.tag = y.tag → lexLe x.name y.name = true)
      (populate_field_combos arrays prevText).entries ∧
    ((populate_field_combos arrays prevText).entries ≠ [] →
      (populate_field_combos arrays prevText).items =
        (populate_field_combos arrays prevText).entries.map displayOf) ∧
    (∀ nm, currentNameOf prevText = some nm →
      ((∃ x ∈ (populate_field_combos arrays prevText).entries, x.name = nm) →
          ∃ x, (populate_field_combos arrays prevText).entries.get?
                (populate_field_combos arrays prevText).selected = some x ∧
              x.name = nm) ∧
      ((∀ x ∈ (populate_field_combos arrays prevText).entries, x.name ≠ nm) →
          (populate_field_combos arrays prevText).selected = 0)) := by
  haveI instTot : IsTotal FieldItem (fun x y => fieldKeyLe x y = true) :=
    ⟨fieldKeyLe_total⟩
  haveI instTrans : IsTrans FieldItem (fun x y => fieldKeyLe x y = true) :=
    ⟨fieldKeyLe_trans⟩
  have hsorted : List.Sorted (fun x y => fieldKeyLe x y = true)
      (sortFields (fieldsOf arrays)) := List.sorted_insertionSort _ _
  have hperm : (sortFields (fieldsOf arrays)).Perm (fieldsOf arrays) :=
    List.perm_insertionSort _ _
  have hvec : ∀ x y : FieldItem, fieldKeyLe x y = true →
      x.tag = FTag.vector → y.tag = FTag.vector := by
    intro x y hk hx
    unfold fieldKeyLe at hk
    rw [hx] at hk
    cases hy : y.tag
    · simp [tagBit, hy] at hk
    · rfl
  have hname : ∀ x y : FieldItem, fieldKeyLe x y = true →
      x.tag = y.tag → lexLe x.name y.name = true := by
    intro x y hk hxy
    unfold fieldKeyLe at hk
    rw [hxy] at hk
    cases hy : y.tag <;> simp [tagBit, hy] at hk <;> exact hk
  rcases populate_eq arrays prevText with ⟨hnil, heq⟩ | ⟨hne, heq⟩
  · rw [heq]
    refine ⟨by rw [hnil] at hperm; simpa using hperm.symm,
      by simp, by simp, by simp, fun h => absurd rfl h, ?_⟩
    intro nm _
    refine ⟨?_, fun _ => rfl⟩
    rintro ⟨x, hx, -⟩
    simp at hx
  · rw [heq]
    refine ⟨hperm, hsorted, hsorted.imp (fun {a b} h => hvec a b h),
      hsorted.imp (fun {a b} h => hname a b h), fun _ => rfl, ?_⟩
    intro nm hnm
    simp only [hnm]
    constructor
    · rintro ⟨x, hx, hxnm⟩
      cases hl : lastIdxOf nm (sortFields (fieldsOf arrays)) with
      | some k =>
        obtain ⟨y, hy1, hy2⟩ := lastIdxOf_get _ nm k hl
        exact ⟨y, by simpa [hl] using hy1, hy2⟩
      | none =>
        exact absurd hxnm ((lastIdxOf_eq_none _ nm).mp hl x hx)
    · intro hall
      cases hl : lastIdxOf nm (sortFields (fieldsOf arrays)) with
      | some k =>
        obtain ⟨y, hy1, hy2⟩ := lastIdxOf_get _ nm k hl
        exact absurd hy2 (hall y (List.get?_mem hy1))
      | none => simp [hl]

/-- Witness for C10: arrays `b` (scalar), `a` (vector), `c` (scalar), `d`
(2 components, omitted) with previous selection `[S] c`: the combo keeps a
field named `c` selected. -/
theorem populate_field_combos_spec_witness :
    ∃ x, (populate_field_combos
          [(strL "b", 1), (strL "a", 3), (strL "c", 1), (strL "d", 2)]
          (some (strL "[S] c"))).entries.get?
        (populate_field_combos
          [(strL "b", 1), (strL "a", 3), (strL "c", 1), (strL "d", 2)]
          (some (strL "[S] c"))).selected = some x ∧ x.name = strL "c" :=
  ((populate_field_combos_spec
      [(strL "b", 1), (strL "a", 3), (strL "c", 1), (strL "d", 2)]
      (some (strL "[S] c"))).2.2.2.2.2 (strL "c") (by decide)).1 (by decide)

/-! ## C8 — degenerate (zero-length) line probe -/

theorem sub3_self (p : V3) : sub3 p p = (0, 0, 0) := by
  obtain ⟨a, b, c⟩ := p
  simp [sub3]

theorem lerp3_self (p : V3) (t : ℚ) : lerp3 p p t = p := by
  obtain ⟨a, b, c⟩ := p
  simp [lerp3]

theorem lineSourcePoints_self (p : V3) (res : ℕ) :
    lineSourcePoints p p res = List.replicate (res + 1) p := by
  unfold lineSourcePoints
  have h : (fun i : ℕ => lerp3 p p ((Nat.cast i : ℚ) / (Nat.cast res : ℚ)))
      = fun _ : ℕ => p := by
    funext i
    exact lerp3_self p _
  rw [h, List.map_const', List.length_range]

theorem arcGo_replicate (normV : V3 → ℚ) (h0 : normV (0, 0, 0) = 0) (p : V3) :
    ∀ (m : ℕ) (tot : ℚ),
      arcGo normV p tot (List.replicate m p) = List.replicate m tot := by
  intro m
  induction m with
  | zero => intro tot; rfl
  | succ m ih =>
    intro tot
    rw [List.replicate_succ, arcGo, sub3_self, h0, add_zero, ih tot,
      List.replicate_succ]

theorem arcLens_replicate (normV : V3 → ℚ) (h0 : normV (0, 0, 0) = 0)
    (p : V3) (m : ℕ) :
    arcLens normV (List.replicate (m + 1) p) = List.replicate (m + 1) 0 := by
  rw [List.replicate_succ, arcLens, arcGo_replicate normV h0 p m 0,
    List.replicate_succ]

/-- C8 (amended): sampling the line probe with two identical endpoints
raises no exception (`on_line_changed` is total) and yields a well-formed
table of exactly 101 rows — `resolution + 1`, NOT an empty or single-point
table — in which every sample is the endpoint itself: the `arc_length`
column is 101 zeros and every scalar column is 101 copies of the field's
value at that point.  Holds for every norm with `norm 0 = 0` (the Euclidean
norm in the code). -/
theorem line_probe_degenerate (normV mag3 : V3 → ℚ) (src : List ProbeArr)
    (p : V3) (h0 : normV (0, 0, 0) = 0) :
    (on_line_changed normV mag3 src p p).head? =
        some (strL "arc_length", List.replicate 101 (0 : ℚ)) ∧
    (∀ col ∈ on_line_changed normV mag3 src p p, col.2.length = 101) ∧
    (∀ nm f, ProbeArr.scalar nm f ∈ src →
        (nm, List.replicate 101 (f p)) ∈ on_line_changed normV mag3 src p p) := by
  have hpts : lineSourcePoints p p 100 = List.replicate 101 p :=
    lineSourcePoints_self p 100
  have h101 : arcLens normV (List.replicate 101 p) = List.replicate 101 (0 : ℚ) :=
    arcLens_replicate normV h0 p 100
  unfold on_line_changed
  rw [hpts]
  refine ⟨?_, ?_, ?_⟩
  · rw [List.head?_cons, h101]
  · intro col hcol
    rcases List.mem_cons.mp hcol with rfl | hcol
    · rw [h101]
      exact List.length_replicate 101 _
    · obtain ⟨arr, harr, hc⟩ := List.mem_flatMap.mp hcol
      cases arr with
      | scalar nm f =>
        simp only [probeColumns, List.mem_singleton] at hc
        subst hc
        rw [List.length_map]
        exact List.length_replicate 101 _
      | vector nm f =>
        simp only [probeColumns, List.mem_cons, List.mem_singleton,
          List.not_mem_nil, or_false] at hc
        rcases hc with hc | hc | hc | hc <;> subst hc <;>
          rw [List.length_map] <;> exact List.length_replicate 101 _
  · intro nm f hmem
    refine List.mem_cons_of_mem _ (List.mem_flatMap.mpr
      ⟨ProbeArr.scalar nm f, hmem, ?_⟩)
    simp [probeColumns, List.map_replicate]

/-- Witness for C8's amended statement at the degenerate probe through
`(1, 2, 3)`. -/
theorem line_probe_degenerate_witness :
    (on_line_changed (fun _ => 0) (fun _ => 0) [] ((1 : ℚ), 2, 3)
        (1, 2, 3)).head? = some (strL "arc_length", List.replicate 101 (0 : ℚ)) :=
  (line_probe_degenerate (fun _ => 0) (fun _ => 0) [] (1, 2, 3) rfl).1

/-- C8 counterexample: probing a dataset with one scalar field (plus the
`vtkValidPointMask` the probe filter appends) along the zero-length line at
the origin produces a table whose three columns each have 101 rows — the
result is neither empty nor single-point, refuting the claim's description
of the result size (while confirming that nothing is raised). -/
theorem line_probe_row_count_counterexample :
    ((on_line_changed (fun _ => 0) (fun _ => 0)
        [ProbeArr.scalar (strL "T") (fun _ => 1),
         ProbeArr.scalar (strL "vtkValidPointMask") (fun _ => 1)]
        (0, 0, 0) (0, 0, 0)).map fun col => col.2.length) = [101, 101, 101] ∧
    (101 : ℕ) ≠ 0 ∧ (101 : ℕ) ≠ 1 := by
  refine ⟨?_, by decide, by decide⟩
  have h101 : arcLens (fun _ : V3 => (0 : ℚ))
        (List.replicate 101 ((0 : ℚ), (0 : ℚ), (0 : ℚ))) =
      List.replicate 101 (0 : ℚ) :=
    arcLens_replicate (fun _ => 0) rfl (0, 0, 0) 100
  unfold on_line_changed
  rw [lineSourcePoints_self]
  simp only [List.flatMap_cons, List.flatMap_nil, probeColumns,
    List.append_nil, List.map_cons, List.map_nil, List.cons_append,
    List.nil_append]
  rw [h101]
  simp

end MUI
